import Mathlib

/-!
Verification of the extraction engine of src/scrape-scshow-cards.js.

The file is a shallow embedding of the pure logic of that script:

* whitespace normalization (the norm helper, lines 41 and 120 of the source);
* CSV field escaping and emission (toCsvField, writeCsv, lines 43-81);
* the key/value harvest merge and its trailing-colon post-processing
  (extractKeyValuesFromArea, lines 118-215);
* the subject-area resolution heuristic (resolveFirstArea, lines 88-115);
* the card-selection dialog bookkeeping and the main driver loop
  (enumerateCardCount, clickNthCard, main, lines 249-337).

Browser interaction is abstracted: the DOM texts that the in-page strategies
feed to the merge are taken as an input list of key/value write events, the
dialog is a list of button texts, and a run environment records how each
interaction with the page turns out.  JavaScript objects with string keys are
modelled as association lists in insertion order, which is exactly the
enumeration order of Object.keys for such objects.
-/

namespace SCS

/-! Section 1: whitespace normalization.

A JavaScript regular-expression whitespace class matches space, tab, LF, VT,
FF, CR, NBSP (U+00A0), U+1680, U+2000 through U+200A, U+2028, U+2029, U+202F,
U+205F, U+3000 and U+FEFF, and String.prototype.trim strips the same set.
The source normalizer is
  (s ?? '').toString().replace(of NBSP, space).replace(of whitespace runs, one space).trim()
-/

def isJsSpace (c : Char) : Bool :=
  c = ' ' || c = '\t' || c = '\n' || c = '\x0b' || c = '\x0c' || c = '\r' ||
  c = '\u00A0' || c = '\u1680' || ('\u2000' ≤ c && c ≤ '\u200A') ||
  c = '\u2028' || c = '\u2029' || c = '\u202F' || c = '\u205F' ||
  c = '\u3000' || c = '\uFEFF'

/-- Replacement of every non-breaking space (U+00A0) by a plain space, the
first replace of the source normalizer. -/
def replaceNbsp (l : List Char) : List Char :=
  l.map (fun c => if c = '\u00A0' then ' ' else c)

/-- Collapse of every maximal run of whitespace into one plain space, the
second replace of the source normalizer.  A whitespace character that is
followed by more whitespace is still inside its run and is dropped; the last
character of a run becomes the single replacement space. -/
def collapseWs : List Char → List Char
  | [] => []
  | [c] => if isJsSpace c then [' '] else [c]
  | c :: d :: t =>
    if isJsSpace c then
      if isJsSpace d then collapseWs (d :: t)
      else ' ' :: collapseWs (d :: t)
    else c :: collapseWs (d :: t)

/-- Leading-whitespace removal, the front half of trim(). -/
def trimStart (l : List Char) : List Char := l.dropWhile isJsSpace

/-- Trailing-whitespace removal, the back half of trim(). -/
def trimEnd (l : List Char) : List Char := (l.reverse.dropWhile isJsSpace).reverse

def normChars (l : List Char) : List Char :=
  trimEnd (trimStart (collapseWs (replaceNbsp l)))

/-- The source normalizer norm (line 41 and line 120 of the script), on strings. -/
def norm (s : String) : String := String.mk (normChars s.data)

example : norm (" a\u00A0 b  ") = "a b" := by decide

/-! Shape of normalizer output: every whitespace character of the output is a
plain space, no two adjacent characters are both whitespace, and neither end
is whitespace.  On lists of that shape every stage of the normalizer is the
identity, which gives idempotence. -/

def noTwoSp (a b : Char) : Prop := ¬(isJsSpace a = true ∧ isJsSpace b = true)

theorem noTwoSp_symm {a b : Char} (h : noTwoSp a b) : noTwoSp b a :=
  fun hh => h ⟨hh.2, hh.1⟩

theorem mem_collapseWs : ∀ {l : List Char} {c : Char}, c ∈ collapseWs l →
    c = ' ' ∨ (c ∈ l ∧ isJsSpace c = false)
  | [], c, h => by simp [collapseWs] at h
  | [a], c, h => by
      by_cases ha : isJsSpace a = true
      · simp only [collapseWs, if_pos ha, List.mem_singleton] at h
        exact Or.inl h
      · simp only [collapseWs, if_neg ha, List.mem_singleton] at h
        subst h
        exact Or.inr ⟨List.mem_singleton_self _, by simpa using ha⟩
  | a :: d :: t2, c, h => by
      by_cases ha : isJsSpace a = true
      · by_cases hd : isJsSpace d = true
        · simp only [collapseWs, if_pos ha, if_pos hd] at h
          rcases mem_collapseWs h with h1 | ⟨h2, h3⟩
          · exact Or.inl h1
          · exact Or.inr ⟨List.mem_cons_of_mem _ h2, h3⟩
        · simp only [collapseWs, if_pos ha, if_neg hd, List.mem_cons] at h
          rcases h with h1 | h1
          · exact Or.inl h1
          · rcases mem_collapseWs h1 with h2 | ⟨h3, h4⟩
            · exact Or.inl h2
            · exact Or.inr ⟨List.mem_cons_of_mem _ h3, h4⟩
      · simp only [collapseWs, if_neg ha, List.mem_cons] at h
        rcases h with h1 | h1
        · subst h1
          exact Or.inr ⟨List.mem_cons_self _ _, by simpa using ha⟩
        · rcases mem_collapseWs h1 with h2 | ⟨h3, h4⟩
          · exact Or.inl h2
          · exact Or.inr ⟨List.mem_cons_of_mem _ h3, h4⟩

theorem head?_collapseWs_cons {d : Char} (t : List Char) (hd : isJsSpace d = false) :
    (collapseWs (d :: t)).head? = some d := by
  cases t with
  | nil => simp [collapseWs, hd]
  | cons e t2 => simp [collapseWs, hd]

theorem chain'_collapseWs : ∀ (l : List Char), List.Chain' noTwoSp (collapseWs l)
  | [] => by simp [collapseWs]
  | [a] => by
      by_cases ha : isJsSpace a = true
      · simp only [collapseWs, if_pos ha]
        exact List.chain'_singleton _
      · simp only [collapseWs, if_neg ha]
        exact List.chain'_singleton _
  | a :: d :: t => by
      by_cases ha : isJsSpace a = true
      · by_cases hd : isJsSpace d = true
        · simpa only [collapseWs, if_pos ha, if_pos hd] using chain'_collapseWs (d :: t)
        · rw [show collapseWs (a :: d :: t) = ' ' :: collapseWs (d :: t) from by
            simp [collapseWs, ha, hd]]
          rw [List.chain'_cons']
          refine ⟨fun y hy => ?_, chain'_collapseWs (d :: t)⟩
          rw [head?_collapseWs_cons t (by simpa using hd), Option.mem_def, Option.some_inj] at hy
          subst hy
          exact fun hh => by simp [hd] at hh
      · rw [show collapseWs (a :: d :: t) = a :: collapseWs (d :: t) from by
          simp [collapseWs, ha]]
        rw [List.chain'_cons']
        refine ⟨fun y _ => ?_, chain'_collapseWs (d :: t)⟩
        exact fun hh => ha hh.1

theorem collapseWs_eq_self : ∀ {l : List Char},
    (∀ c ∈ l, isJsSpace c = true → c = ' ') → List.Chain' noTwoSp l →
    collapseWs l = l
  | [], _, _ => rfl
  | [a], hb, _ => by
      by_cases ha : isJsSpace a = true
      · have : a = ' ' := hb a (List.mem_singleton_self a) ha
        simp [collapseWs, ha, this]
      · simp [collapseWs, ha]
  | a :: d :: t, hb, hch => by
      have hch2 : List.Chain' noTwoSp (d :: t) := (List.chain'_cons.mp hch).2
      have ih := collapseWs_eq_self (fun c hc h => hb c (List.mem_cons_of_mem _ hc) h) hch2
      by_cases ha : isJsSpace a = true
      · have had : noTwoSp a d := (List.chain'_cons.mp hch).1
        have hd : isJsSpace d = false := by
          cases hdd : isJsSpace d
          · rfl
          · exact absurd ⟨ha, hdd⟩ had
        have ha' : a = ' ' := hb a (List.mem_cons_self _ _) ha
        simp [collapseWs, ha, hd, ha', ih]
      · simp [collapseWs, ha, ih]

theorem mem_of_mem_dropWhile {α : Type} {p : α → Bool} :
    ∀ {l : List α} {c : α}, c ∈ l.dropWhile p → c ∈ l
  | [], _, h => by simp [List.dropWhile] at h
  | a :: t, c, h => by
      rw [List.dropWhile_cons] at h
      by_cases hpa : p a = true
      · rw [if_pos hpa] at h
        exact List.mem_cons_of_mem _ (mem_of_mem_dropWhile h)
      · rw [if_neg hpa] at h
        exact h

theorem dropWhile_suffix_decomp {α : Type} (p : α → Bool) :
    ∀ (l : List α), ∃ pre, l = pre ++ l.dropWhile p
  | [] => ⟨[], rfl⟩
  | a :: t => by
      by_cases hpa : p a = true
      · obtain ⟨pre, hp⟩ := dropWhile_suffix_decomp p t
        refine ⟨a :: pre, ?_⟩
        rw [List.dropWhile_cons, if_pos hpa, List.cons_append, ← hp]
      · exact ⟨[], by rw [List.dropWhile_cons, if_neg hpa]; rfl⟩

theorem chain'_dropWhile {R : Char → Char → Prop} {p : Char → Bool} {l : List Char}
    (h : List.Chain' R l) : List.Chain' R (l.dropWhile p) := by
  obtain ⟨pre, hp⟩ := dropWhile_suffix_decomp p l
  rw [hp] at h
  exact (List.chain'_append.mp h).2.1

theorem head?_dropWhile_false {p : Char → Bool} {l : List Char} {c : Char}
    (h : (l.dropWhile p).head? = some c) : p c = false := by
  have hh := List.head?_dropWhile_not p l
  rw [h] at hh
  exact hh

theorem chain'_trimEnd {l : List Char} (h : List.Chain' noTwoSp l) :
    List.Chain' noTwoSp (trimEnd l) := by
  have hrev : List.Chain' noTwoSp l.reverse :=
    List.chain'_reverse.mpr (h.imp fun a b => noTwoSp_symm)
  have hdrop := chain'_dropWhile (p := isJsSpace) hrev
  exact List.chain'_reverse.mpr (hdrop.imp fun a b => noTwoSp_symm)

theorem trimEnd_decomp (l : List Char) : ∃ suf, l = trimEnd l ++ suf := by
  obtain ⟨pre, hp⟩ := dropWhile_suffix_decomp isJsSpace l.reverse
  refine ⟨pre.reverse, ?_⟩
  unfold trimEnd
  calc l = l.reverse.reverse := (List.reverse_reverse l).symm
  _ = (pre ++ l.reverse.dropWhile isJsSpace).reverse := by rw [← hp]
  _ = (l.reverse.dropWhile isJsSpace).reverse ++ pre.reverse := by rw [List.reverse_append]

theorem head?_append_of_head? {α : Type} {m suf : List α} {c : α}
    (h : m.head? = some c) : (m ++ suf).head? = some c := by
  cases m with
  | nil => simp at h
  | cons a t => simpa using h

theorem mem_trimEnd {l : List Char} {c : Char} (h : c ∈ trimEnd l) : c ∈ l := by
  unfold trimEnd at h
  rw [List.mem_reverse] at h
  have h2 := mem_of_mem_dropWhile h
  rwa [List.mem_reverse] at h2

theorem normChars_spaces {l : List Char} {c : Char} (hc : c ∈ normChars l)
    (hsp : isJsSpace c = true) : c = ' ' := by
  have h0 : c ∈ trimStart (collapseWs (replaceNbsp l)) := mem_trimEnd hc
  have h1 : c ∈ collapseWs (replaceNbsp l) := mem_of_mem_dropWhile h0
  rcases mem_collapseWs h1 with h | ⟨_, hf⟩
  · exact h
  · rw [hsp] at hf
    cases hf

theorem normChars_chain (l : List Char) : List.Chain' noTwoSp (normChars l) := by
  unfold normChars
  exact chain'_trimEnd (chain'_dropWhile (chain'_collapseWs (replaceNbsp l)))

theorem trimStart_head {l : List Char} {c : Char}
    (h : (trimStart l).head? = some c) : isJsSpace c = false :=
  head?_dropWhile_false h

theorem normChars_head {l : List Char} {c : Char}
    (h : (normChars l).head? = some c) : isJsSpace c = false := by
  obtain ⟨suf, hs⟩ := trimEnd_decomp (trimStart (collapseWs (replaceNbsp l)))
  have h2 : (trimStart (collapseWs (replaceNbsp l))).head? = some c := by
    rw [hs]
    exact head?_append_of_head? h
  exact trimStart_head h2

theorem normChars_last {l : List Char} {c : Char}
    (h : (normChars l).getLast? = some c) : isJsSpace c = false := by
  unfold normChars trimEnd at h
  rw [List.getLast?_reverse] at h
  exact head?_dropWhile_false h

theorem normChars_idem (l : List Char) : normChars (normChars l) = normChars l := by
  have hb : ∀ c ∈ normChars l, isJsSpace c = true → c = ' ' :=
    fun c hc h => normChars_spaces hc h
  have hch : List.Chain' noTwoSp (normChars l) := normChars_chain l
  have h1 : replaceNbsp (normChars l) = normChars l := by
    unfold replaceNbsp
    rw [List.map_congr_left (g := id) ?_, List.map_id]
    intro c hc
    by_cases h : c = '\u00A0'
    · subst h
      exact absurd (hb _ hc (by decide)) (by decide)
    · simp [h]
  have h2 : collapseWs (normChars l) = normChars l := collapseWs_eq_self hb hch
  have h3 : trimStart (normChars l) = normChars l := by
    unfold trimStart
    cases hm2 : normChars l with
    | nil => simp
    | cons c t =>
      have hcs : isJsSpace c = false := normChars_head (by rw [hm2]; rfl)
      rw [List.dropWhile_cons, if_neg (by simp [hcs])]
  have h4 : trimEnd (normChars l) = normChars l := by
    unfold trimEnd
    have hdw : (normChars l).reverse.dropWhile isJsSpace = (normChars l).reverse := by
      cases hr : (normChars l).reverse with
      | nil => simp
      | cons c t =>
        have hc2 : (normChars l).getLast? = some c := by
          rw [← List.head?_reverse, hr]
          rfl
        have hcs : isJsSpace c = false := normChars_last hc2
        rw [List.dropWhile_cons, if_neg (by simp [hcs])]
    rw [hdw, List.reverse_reverse]
  show trimEnd (trimStart (collapseWs (replaceNbsp (normChars l)))) = normChars l
  rw [h1, h2, h3, h4]

theorem norm_idem (s : String) : norm (norm s) = norm s := by
  unfold norm
  rw [show (String.mk (normChars s.data)).data = normChars s.data from rfl, normChars_idem]

/-! Section 2: CSV emission, the source functions toCsvField (lines 43-47)
and writeCsv (lines 49-81), and a standard CSV field reader used to state the
round-trip property. -/

def needsQuoting (s : String) : Bool :=
  s.data.any (fun c => c = ',' || c = '"' || c = '\n')

def escQuoteChars : List Char → List Char
  | [] => []
  | c :: t => if c = '"' then '"' :: '"' :: escQuoteChars t else c :: escQuoteChars t

/-- Doubling of every embedded quote character, the replace inside toCsvField. -/
def escapeQuotes (s : String) : String := String.mk (escQuoteChars s.data)

/-- The source toCsvField.  The argument is an optional string: none stands
for the JavaScript null or undefined that reaches the function when a record
lacks a field, and the v == null test maps it to the empty string. -/
def toCsvField : Option String → String
  | none => ""
  | some s => if needsQuoting s then "\"" ++ escapeQuotes s ++ "\"" else s

/-- Standard CSV reading of one complete quoted-field body, the text after
the opening quote: a doubled quote stands for one quote character, a single
quote closes the field and must end the input, anything else is verbatim. -/
def csvQuotedRest : List Char → Option (List Char)
  | [] => none
  | c :: t =>
    if c = '"' then
      match t with
      | [] => some []
      | d :: t2 => if d = '"' then (csvQuotedRest t2).map (fun r => '"' :: r) else none
    else (csvQuotedRest t).map (fun r => c :: r)

/-- Standard CSV reading of one complete field: a field starting with a quote
is read as a quoted field, and an unquoted field is the verbatim text, legal
only when it contains no separator, quote character or line break. -/
def parseCsvField (l : List Char) : Option (List Char) :=
  match l with
  | '"' :: t => csvQuotedRest t
  | _ => if l.any (fun c => c = ',' || c = '"' || c = '\n') then none else some l

theorem needsQuoting_iff (s : String) :
    needsQuoting s = true ↔ (',' ∈ s.data ∨ '"' ∈ s.data ∨ '\n' ∈ s.data) := by
  simp only [needsQuoting, List.any_eq_true, Bool.or_eq_true, decide_eq_true_eq]
  constructor
  · rintro ⟨c, hc, (h | h) | h⟩
    · subst h; exact Or.inl hc
    · subst h; exact Or.inr (Or.inl hc)
    · subst h; exact Or.inr (Or.inr hc)
  · rintro (h | h | h)
    · exact ⟨',', h, Or.inl (Or.inl rfl)⟩
    · exact ⟨'"', h, Or.inl (Or.inr rfl)⟩
    · exact ⟨'\n', h, Or.inr rfl⟩

theorem csvQuotedRest_escQuote (l : List Char) :
    csvQuotedRest (escQuoteChars l ++ ['"']) = some l := by
  induction l with
  | nil => rfl
  | cons c t ih =>
    by_cases hc : c = '"'
    · subst hc
      show csvQuotedRest ('"' :: '"' :: (escQuoteChars t ++ ['"'])) = _
      rw [show csvQuotedRest ('"' :: '"' :: (escQuoteChars t ++ ['"'])) =
        (csvQuotedRest (escQuoteChars t ++ ['"'])).map (fun r => '"' :: r) from rfl]
      rw [ih]
      rfl
    · rw [show escQuoteChars (c :: t) = c :: escQuoteChars t from by
        simp [escQuoteChars, hc]]
      rw [List.cons_append]
      rw [show csvQuotedRest (c :: (escQuoteChars t ++ ['"'])) =
        (csvQuotedRest (escQuoteChars t ++ ['"'])).map (fun r => c :: r) from by
        rw [csvQuotedRest.eq_def]
        simp [hc]]
      rw [ih]
      rfl

theorem parse_toCsvField (s : String) (h1 : ',' ∈ s.data) :
    parseCsvField (toCsvField (some s)).data = some s.data := by
  have hq : needsQuoting s = true := (needsQuoting_iff s).mpr (Or.inl h1)
  have ht : toCsvField (some s) = "\"" ++ escapeQuotes s ++ "\"" := by
    simp only [toCsvField, if_pos hq]
  rw [ht]
  show parseCsvField (['"'] ++ escQuoteChars s.data ++ ['"']) = some s.data
  rw [List.append_assoc]
  show csvQuotedRest (escQuoteChars s.data ++ ['"']) = some s.data
  exact csvQuotedRest_escQuote s.data

/-- The fixed preferred-header list of writeCsv (lines 51-67). -/
def prefer : List String :=
  ["index", "カード名", "メンバー", "シリーズ", "消費AP", "タイプ", "属性", "スキル",
   "スキル効果", "効果時間", "効果値", "条件", "レアリティ", "レベル", "覚醒"]

/-- Insertion into the key set; a JavaScript Set keeps first-insertion order. -/
def addKey (ks : List String) (k : String) : List String :=
  if ks.contains k then ks else ks ++ [k]

/-- The union of all field keys over all records in first-seen order, the
keySet of writeCsv (lines 68-69). -/
def keysOf (rows : List (List (String × String))) : List String :=
  rows.foldl (fun ks r => r.foldl (fun ks2 e => addKey ks2 e.1) ks) []

/-- A stable comparison sort, the model of Array.prototype.sort with a
comparator; the ECMAScript sort is required to be stable and to order by the
comparator, which is all the properties used here. -/
def sortByLe (le : String → String → Bool) (l : List String) : List String :=
  List.insertionSort (fun a b => le a b = true) l

/-- The header of writeCsv (lines 70-72): preferred keys that occur, in the
fixed order, then the remaining keys sorted by the host locale collator,
which is abstracted as the boolean comparison le. -/
def writeCsvHeaders (rows : List (List (String × String)))
    (le : String → String → Bool) : List String :=
  let ks := keysOf rows
  prefer.filter (fun k => ks.contains k) ++
    sortByLe le (ks.filter (fun k => !prefer.contains k))

def csvLine (cells : List String) : String := String.intercalate (",") cells

/-- The full text written by writeCsv (lines 74-80): one header line, then
one line per record; a record's missing fields read as none and print as the
empty string. -/
def writeCsvContent (rows : List (List (String × String)))
    (le : String → String → Bool) : String :=
  let hs := writeCsvHeaders rows le
  String.intercalate ("\n")
    (csvLine (hs.map (fun h => toCsvField (some h))) ::
      rows.map (fun r => csvLine (hs.map (fun h => toCsvField (r.lookup h)))))

/-- The fallback artifact written by the failure handler of the script
(lines 330-334): the five fixed header names and a final newline. -/
def fallbackContent : String := "index,カード名,メンバー,シリーズ,消費AP" ++ "\n"

example : writeCsvContent [] (fun _ _ => true) = "" := by rfl

example : writeCsvContent [[("B", "y")], [("メンバー", "m")]] (fun _ _ => true) =
    "メンバー,B" ++ "\n" ++ ",y" ++ "\n" ++ "m," := by rfl

/-! Section 3: the harvest merge of extractKeyValuesFromArea (lines 118-215)
and the record assembly of the driver loop (lines 308-313). -/

/-- Removal of one trailing colon and its surrounding trailing whitespace,
the replace with the end-anchored colon pattern used at lines 200 and 206 of
the source: the rightmost half- or full-width colon that is followed only by
whitespace is removed together with the whitespace around it; text without
such a trailing colon is unchanged. -/
def stripColonChars (l : List Char) : List Char :=
  match l.reverse.dropWhile isJsSpace with
  | c :: t => if c = ':' ∨ c = '\uFF1A' then (t.dropWhile isJsSpace).reverse else l
  | [] => l

def stripColon (s : String) : String := String.mk (stripColonChars s.data)

/-- JavaScript object assignment on an insertion-ordered association list: an
existing key keeps its position and receives the new value, a new key is
appended at the end. -/
def kvAssign : List (String × String) → String → String → List (String × String)
  | [], k, v => [(k, v)]
  | e :: t, k, v => if e.1 = k then (e.1, v) :: t else e :: kvAssign t k v

/-- JavaScript delete of a key on the association list. -/
def kvDelete : List (String × String) → String → List (String × String)
  | [], _ => []
  | e :: t, k => if e.1 = k then t else e :: kvDelete t k

/-- One call of the set helper of extractKeyValuesFromArea (lines 123-129):
key and value are normalized, an empty key is ignored, and the value is
stored only when the key is absent or its stored value is the empty string. -/
def setStep (kv : List (String × String)) (e : String × String) : List (String × String) :=
  let key := norm e.1
  let val := norm e.2
  if key = "" then kv
  else
    match kv.lookup key with
    | none => kvAssign kv key val
    | some old => if old = "" then kvAssign kv key val else kv

/-- The object state after the four strategies have issued their writes in
document order; the write events are the abstract input of the extractor. -/
def buildKv (ws : List (String × String)) : List (String × String) :=
  ws.foldl setStep []

/-- One iteration of the trailing-colon post-processing loop of
extractKeyValuesFromArea (lines 204-211), for snapshot key k: when stripping
changes the key, the value is copied to the stripped key only if that key is
absent, and the original key is deleted.  The lookup of k cannot miss when
the keys are pairwise distinct, as in a JavaScript object; a missing key
leaves the state unchanged. -/
def postStep (kv : List (String × String)) (k : String) : List (String × String) :=
  let nk := stripColon k
  if nk = k then kv
  else
    match kv.lookup k with
    | none => kv
    | some v =>
      let kv2 :=
        match kv.lookup nk with
        | some _ => kv
        | none => kv ++ [(nk, v)]
      kvDelete kv2 k

/-- The trailing-colon post-processing loop; Object.keys takes a snapshot of
the keys before the loop mutates the object. -/
def postProcess (kv : List (String × String)) : List (String × String) :=
  (kv.map Prod.fst).foldl postStep kv

/-- The source extractKeyValuesFromArea (lines 118-215) as a function of the
write events that its four strategies issue against the set helper. -/
def extractKeyValuesFromArea (ws : List (String × String)) : List (String × String) :=
  postProcess (buildKv ws)

example : extractKeyValuesFromArea [("メンバー", " m  x "), ("メンバー", "y")] =
    [("メンバー", "m x")] := by decide

example : extractKeyValuesFromArea [("B: ", "v")] = [("B", "v")] := by decide

example : extractKeyValuesFromArea [("A", ""), ("A:", "x")] = [("A", "")] := by decide

/-- The composite card name of the driver loop (lines 309-311): the series
in square brackets when non-empty, then the member, joined by a space with
empty parts dropped. -/
def mkCardName (kv : List (String × String)) : String :=
  let series := (kv.lookup ("シリーズ")).getD ("")
  let member := (kv.lookup ("メンバー")).getD ("")
  let parts := [if series = "" then "" else "[" ++ series ++ "]", member]
  String.intercalate (" ") (parts.filter (fun p => !(p == "")))

/-- The record literal of the driver loop (line 312): index and the composite
card name first, then the harvested pairs spread over them, each spread entry
overwriting in place or appending, as the object spread does. -/
def mkRec (i : Nat) (kv : List (String × String)) : List (String × String) :=
  kv.foldl (fun acc e => kvAssign acc e.1 e.2)
    [(("index"), toString (i + 1)), (("カード名"), mkCardName kv)]

example : mkRec 1 [("メンバー", "m")] =
    [("index", "2"), ("カード名", "m"), ("メンバー", "m")] := by decide

example : mkCardName [("シリーズ", "S"), ("メンバー", "m")] = "[S] m" := by decide

/-! Association-list lemmas for the merge. -/

theorem lookup_cons_if (k k1 v1 : String) (t : List (String × String)) :
    List.lookup k ((k1, v1) :: t) = if k = k1 then some v1 else List.lookup k t := by
  rw [List.lookup_cons]
  by_cases h : k = k1
  · rw [beq_iff_eq.mpr h, if_pos h]
  · rw [beq_eq_false_iff_ne.mpr h, if_neg h]

theorem lookup_kvAssign_self : ∀ (kv : List (String × String)) (k v : String),
    (kvAssign kv k v).lookup k = some v
  | [], k, v => by
      simp only [kvAssign]
      rw [lookup_cons_if, if_pos rfl]
  | e :: t, k, v => by
      obtain ⟨k1, v1⟩ := e
      by_cases he : k1 = k
      · subst he
        have h1 : kvAssign ((k1, v1) :: t) k1 v = (k1, v) :: t := by simp [kvAssign]
        rw [h1, lookup_cons_if, if_pos rfl]
      · have h1 : kvAssign ((k1, v1) :: t) k v = (k1, v1) :: kvAssign t k v := by
          simp [kvAssign, he]
        rw [h1, lookup_cons_if, if_neg (Ne.symm he)]
        exact lookup_kvAssign_self t k v

theorem lookup_kvAssign_ne : ∀ (kv : List (String × String)) (k v k2 : String),
    k2 ≠ k → (kvAssign kv k v).lookup k2 = kv.lookup k2
  | [], k, v, k2, h => by
      simp only [kvAssign]
      rw [lookup_cons_if, if_neg h]
  | e :: t, k, v, k2, h => by
      obtain ⟨k1, v1⟩ := e
      by_cases he : k1 = k
      · subst he
        have h1 : kvAssign ((k1, v1) :: t) k1 v = (k1, v) :: t := by simp [kvAssign]
        rw [h1, lookup_cons_if, lookup_cons_if, if_neg h, if_neg h]
      · have h1 : kvAssign ((k1, v1) :: t) k v = (k1, v1) :: kvAssign t k v := by
          simp [kvAssign, he]
        rw [h1, lookup_cons_if, lookup_cons_if]
        by_cases h2 : k2 = k1
        · rw [if_pos h2, if_pos h2]
        · rw [if_neg h2, if_neg h2]
          exact lookup_kvAssign_ne t k v k2 h

theorem lookup_kvDelete_ne : ∀ (kv : List (String × String)) (k k2 : String),
    k2 ≠ k → (kvDelete kv k).lookup k2 = kv.lookup k2
  | [], _, _, _ => by simp [kvDelete]
  | e :: t, k, k2, h => by
      obtain ⟨k1, v1⟩ := e
      by_cases he : k1 = k
      · subst he
        have h1 : kvDelete ((k1, v1) :: t) k1 = t := by simp [kvDelete]
        rw [h1, lookup_cons_if, if_neg h]
      · have h1 : kvDelete ((k1, v1) :: t) k = (k1, v1) :: kvDelete t k := by
          simp [kvDelete, he]
        rw [h1, lookup_cons_if, lookup_cons_if]
        by_cases h2 : k2 = k1
        · rw [if_pos h2, if_pos h2]
        · rw [if_neg h2, if_neg h2]
          exact lookup_kvDelete_ne t k k2 h

theorem lookup_append_isSome : ∀ (kv l2 : List (String × String)) (k : String),
    (kv.lookup k).isSome = true → (kv ++ l2).lookup k = kv.lookup k
  | [], _, k, h => by simp [List.lookup] at h
  | e :: t, l2, k, h => by
      obtain ⟨k1, v1⟩ := e
      rw [List.cons_append, lookup_cons_if, lookup_cons_if]
      rw [lookup_cons_if] at h
      by_cases h2 : k = k1
      · rw [if_pos h2]
        rw [if_pos h2]
      · rw [if_neg h2] at h ⊢
        rw [if_neg h2]
        exact lookup_append_isSome t l2 k h

theorem lookup_mem : ∀ {kv : List (String × String)} {k v : String},
    kv.lookup k = some v → (k, v) ∈ kv
  | [], k, v, h => by simp [List.lookup] at h
  | e :: t, k, v, h => by
      obtain ⟨k1, v1⟩ := e
      rw [lookup_cons_if] at h
      by_cases h2 : k = k1
      · rw [if_pos h2, Option.some_inj] at h
        subst h2
        subst h
        exact List.mem_cons_self _ _
      · rw [if_neg h2] at h
        exact List.mem_cons_of_mem _ (lookup_mem h)

theorem mem_kvAssign : ∀ {kv : List (String × String)} {k v : String} {p : String × String},
    p ∈ kvAssign kv k v → p ∈ kv ∨ p = (k, v)
  | [], k, v, p, h => by
      simp only [kvAssign, List.mem_singleton] at h
      exact Or.inr h
  | e :: t, k, v, p, h => by
      obtain ⟨k1, v1⟩ := e
      by_cases he : k1 = k
      · subst he
        rw [show kvAssign ((k1, v1) :: t) k1 v = (k1, v) :: t from by
          simp [kvAssign], List.mem_cons] at h
        rcases h with h | h
        · exact Or.inr h
        · exact Or.inl (List.mem_cons_of_mem _ h)
      · rw [show kvAssign ((k1, v1) :: t) k v = (k1, v1) :: kvAssign t k v from by
          simp [kvAssign, he], List.mem_cons] at h
        rcases h with h | h
        · subst h
          exact Or.inl (List.mem_cons_self _ _)
        · rcases mem_kvAssign h with h2 | h2
          · exact Or.inl (List.mem_cons_of_mem _ h2)
          · exact Or.inr h2

theorem mem_kvDelete : ∀ {kv : List (String × String)} {k : String} {p : String × String},
    p ∈ kvDelete kv k → p ∈ kv
  | [], k, p, h => by simp [kvDelete] at h
  | e :: t, k, p, h => by
      by_cases he : e.1 = k
      · simp only [kvDelete, if_pos he] at h
        exact List.mem_cons_of_mem _ h
      · simp only [kvDelete, if_neg he, List.mem_cons] at h
        rcases h with h | h
        · exact h ▸ List.mem_cons_self _ _
        · exact List.mem_cons_of_mem _ (mem_kvDelete h)

/-! First-write-wins characterization of the set helper, and preservation of
values through the colon post-processing. -/

/-- The first-write-wins rule with empty filling, as the specification words
it, folded over the values successively written to one key: the earliest
non-empty value is kept, an empty stored value is replaced by the next
written value, and a key never written is absent. -/
def mergeVal : Option String → List String → Option String
  | cur, [] => cur
  | none, v :: vs => mergeVal (some v) vs
  | some c, v :: vs => if c = "" then mergeVal (some v) vs else mergeVal (some c) vs

/-- The normalized values of the write events whose normalized key is k. -/
def writesFor (ws : List (String × String)) (k : String) : List String :=
  (ws.filter (fun e => norm e.1 == k)).map (fun e => norm e.2)

theorem lookup_setStep_ne (kv : List (String × String)) (e : String × String)
    (k : String) (h : norm e.1 ≠ k) : (setStep kv e).lookup k = kv.lookup k := by
  simp only [setStep]
  by_cases hk : norm e.1 = ""
  · rw [if_pos hk]
  · rw [if_neg hk]
    cases hl : kv.lookup (norm e.1) with
    | none => exact lookup_kvAssign_ne kv (norm e.1) (norm e.2) k (Ne.symm h)
    | some old =>
      dsimp only
      by_cases ho : old = ""
      · rw [if_pos ho]
        exact lookup_kvAssign_ne kv (norm e.1) (norm e.2) k (Ne.symm h)
      · rw [if_neg ho]

theorem lookup_foldl_setStep (k : String) (hk : k ≠ "") :
    ∀ (ws : List (String × String)) (kv : List (String × String)),
    (ws.foldl setStep kv).lookup k = mergeVal (kv.lookup k) (writesFor ws k)
  | [], kv => by simp [writesFor, mergeVal]
  | e :: t, kv => by
      rw [List.foldl_cons]
      by_cases hkey : norm e.1 = k
      · have hfil : writesFor (e :: t) k = norm e.2 :: writesFor t k := by
          simp [writesFor, List.filter_cons, hkey]
        rw [hfil]
        have hstep : setStep kv e =
            match kv.lookup k with
            | none => kvAssign kv k (norm e.2)
            | some old => if old = "" then kvAssign kv k (norm e.2) else kv := by
          simp only [setStep, hkey, if_neg hk]
        cases hl : kv.lookup k with
        | none =>
          rw [hstep, hl]
          dsimp only
          rw [lookup_foldl_setStep k hk t _, lookup_kvAssign_self]
          simp [mergeVal]
        | some old =>
          by_cases ho : old = ""
          · rw [hstep, hl]
            dsimp only
            rw [if_pos ho, lookup_foldl_setStep k hk t _, lookup_kvAssign_self]
            simp [mergeVal, ho]
          · rw [hstep, hl]
            dsimp only
            rw [if_neg ho, lookup_foldl_setStep k hk t kv, hl]
            simp [mergeVal, ho]
      · have hfil : writesFor (e :: t) k = writesFor t k := by
          simp [writesFor, List.filter_cons, beq_eq_false_iff_ne.mpr hkey]
        rw [hfil, lookup_foldl_setStep k hk t _, lookup_setStep_ne kv e k hkey]

theorem lookup_buildKv (ws : List (String × String)) (k : String) (hk : k ≠ "") :
    (buildKv ws).lookup k = mergeVal none (writesFor ws k) := by
  unfold buildKv
  rw [lookup_foldl_setStep k hk ws []]
  rfl

theorem lookup_postStep (kv : List (String × String)) (k nk : String)
    (hnk : stripColon nk = nk) (hs : (kv.lookup nk).isSome = true) :
    (postStep kv k).lookup nk = kv.lookup nk := by
  simp only [postStep]
  by_cases h1 : stripColon k = k
  · rw [if_pos h1]
  · rw [if_neg h1]
    have hkn : nk ≠ k := fun hh => h1 (hh ▸ hnk)
    cases hl : kv.lookup k with
    | none => rfl
    | some v =>
      dsimp only
      cases hl2 : kv.lookup (stripColon k) with
      | some w => exact lookup_kvDelete_ne kv k nk hkn
      | none =>
        dsimp only
        rw [lookup_kvDelete_ne _ k nk hkn, lookup_append_isSome kv _ nk hs]

theorem lookup_foldl_postStep (nk : String) (hnk : stripColon nk = nk) :
    ∀ (ks : List String) (kv : List (String × String)),
    (kv.lookup nk).isSome = true →
    (ks.foldl postStep kv).lookup nk = kv.lookup nk
  | [], _, _ => rfl
  | k :: t, kv, hs => by
      rw [List.foldl_cons]
      have h1 := lookup_postStep kv k nk hnk hs
      rw [lookup_foldl_postStep nk hnk t (postStep kv k) (by rw [h1]; exact hs), h1]

theorem lookup_postProcess (kv : List (String × String)) (nk : String)
    (hnk : stripColon nk = nk) (hs : (kv.lookup nk).isSome = true) :
    (postProcess kv).lookup nk = kv.lookup nk :=
  lookup_foldl_postStep nk hnk (kv.map Prod.fst) kv hs

theorem mem_setStep {kv : List (String × String)} {e p : String × String}
    (h : p ∈ setStep kv e) : p ∈ kv ∨ p.2 = norm e.2 := by
  simp only [setStep] at h
  by_cases hk : norm e.1 = ""
  · rw [if_pos hk] at h
    exact Or.inl h
  · rw [if_neg hk] at h
    cases hl : kv.lookup (norm e.1) with
    | none =>
      rw [hl] at h
      rcases mem_kvAssign h with h2 | h2
      · exact Or.inl h2
      · exact Or.inr (by rw [h2])
    | some old =>
      rw [hl] at h
      dsimp only at h
      by_cases ho : old = ""
      · rw [if_pos ho] at h
        rcases mem_kvAssign h with h2 | h2
        · exact Or.inl h2
        · exact Or.inr (by rw [h2])
      · rw [if_neg ho] at h
        exact Or.inl h

theorem buildKv_values_aux : ∀ (ws kv : List (String × String)),
    (∀ p ∈ kv, p.2 = norm p.2) → ∀ p ∈ ws.foldl setStep kv, p.2 = norm p.2
  | [], _, hkv, p, hp => hkv p hp
  | e :: t, kv, hkv, p, hp => by
      rw [List.foldl_cons] at hp
      refine buildKv_values_aux t (setStep kv e) ?_ p hp
      intro q hq
      rcases mem_setStep hq with h | h
      · exact hkv q h
      · rw [h]
        exact (norm_idem e.2).symm

theorem mem_postStep {kv : List (String × String)} {k : String} {p : String × String}
    (h : p ∈ postStep kv k) : p ∈ kv ∨ ∃ q ∈ kv, p.2 = q.2 := by
  simp only [postStep] at h
  by_cases h1 : stripColon k = k
  · rw [if_pos h1] at h
    exact Or.inl h
  · rw [if_neg h1] at h
    cases hl : kv.lookup k with
    | none =>
      rw [hl] at h
      exact Or.inl h
    | some v =>
      rw [hl] at h
      dsimp only at h
      cases hl2 : kv.lookup (stripColon k) with
      | some w =>
        rw [hl2] at h
        dsimp only at h
        exact Or.inl (mem_kvDelete h)
      | none =>
        rw [hl2] at h
        dsimp only at h
        have h2 := mem_kvDelete h
        rcases List.mem_append.mp h2 with h3 | h3
        · exact Or.inl h3
        · rw [List.mem_singleton] at h3
          exact Or.inr ⟨(k, v), lookup_mem hl, by rw [h3]⟩

theorem postProcess_values_aux : ∀ (ks : List String) (kv : List (String × String)),
    (∀ p ∈ kv, p.2 = norm p.2) → ∀ p ∈ ks.foldl postStep kv, p.2 = norm p.2
  | [], _, hkv, p, hp => hkv p hp
  | k :: t, kv, hkv, p, hp => by
      rw [List.foldl_cons] at hp
      refine postProcess_values_aux t (postStep kv k) ?_ p hp
      intro q hq
      rcases mem_postStep hq with h | ⟨r, hr, h⟩
      · exact hkv q h
      · rw [h]
        exact hkv r hr

theorem extract_values_normalized {ws : List (String × String)} {p : String × String}
    (hp : p ∈ extractKeyValuesFromArea ws) : p.2 = norm p.2 := by
  unfold extractKeyValuesFromArea postProcess at hp
  refine postProcess_values_aux _ _ ?_ p hp
  exact buildKv_values_aux ws [] (by intro q hq; simp at hq)

/-! Section 4: the subject-area resolution heuristic resolveFirstArea
(lines 88-115).  An element carries its tag name, uppercase as the DOM
reports it for HTML, and its class attribute; the walk is given the chain of
ancestors of the anchor button, nearest first, and the document body as the
final fallback. -/

structure Element where
  tag : String
  cls : String
deriving DecidableEq

def isPrefixB : List Char → List Char → Bool
  | [], _ => true
  | _ :: _, [] => false
  | a :: as, b :: bs => a = b && isPrefixB as bs

/-- Containment of pat in s as a contiguous substring, the effect of an
unanchored regular-expression test for a literal pattern, and of the
Playwright has-text matching on button texts. -/
def substrB : List Char → List Char → Bool
  | pat, [] => isPrefixB pat []
  | pat, c :: rest => isPrefixB pat (c :: rest) || substrB pat rest

def substrS (pat s : String) : Bool := substrB pat.data s.data

/-- The class patterns of the area heuristic (line 106 of the source); the
pattern written as col followed by a hyphen matches grid classes such as
col-6 but not the word column. -/
def areaClassPatterns : List String :=
  ["card", "panel", "container", "row", "col-", "member", "area", "block"]

/-- Lowercasing of the class attribute, the toLowerCase call of the source,
done per character. -/
def lowerStr (s : String) : String := String.mk (s.data.map Char.toLower)

def matchesArea (e : Element) : Bool :=
  e.tag == "SECTION" || areaClassPatterns.any (fun p => substrS p (lowerStr e.cls))

/-- The ancestor walk of resolveFirstArea, bounded by the depth counter of
the source loop. -/
def resolveLoop : Nat → List Element → Option Element
  | 0, _ => none
  | _ + 1, [] => none
  | n + 1, e :: rest => if matchesArea e then some e else resolveLoop n rest

/-- The source resolveFirstArea (lines 98-113): at most eight ancestors are
examined, the first match is returned, and the document body is the
fallback. -/
def resolveFirstArea (ancestors : List Element) (body : Element) : Element :=
  (resolveLoop 8 ancestors).getD body

/-- Modelled from the spec: the pattern set as the specification words it,
with the whole word column in place of the hyphenated col pattern of the
source. -/
def areaClassPatternsSpec : List String :=
  ["card", "panel", "container", "row", "column", "member", "area", "block"]

/-- Modelled from the spec: the matching predicate over the spec pattern
set. -/
def matchesAreaSpec (e : Element) : Bool :=
  e.tag == "SECTION" || areaClassPatternsSpec.any (fun p => substrS p (lowerStr e.cls))

/-- Modelled from the spec: the bounded ancestor walk over the spec
predicate. -/
def resolveLoopSpec : Nat → List Element → Option Element
  | 0, _ => none
  | _ + 1, [] => none
  | n + 1, e :: rest => if matchesAreaSpec e then some e else resolveLoopSpec n rest

/-- Modelled from the spec: the resolver over the spec predicate. -/
def resolveFirstAreaSpec (ancestors : List Element) (body : Element) : Element :=
  (resolveLoopSpec 8 ancestors).getD body

theorem resolveLoop_eq_find? : ∀ (n : Nat) (l : List Element),
    resolveLoop n l = (l.take n).find? matchesArea
  | 0, l => by simp [resolveLoop]
  | n + 1, [] => by simp [resolveLoop]
  | n + 1, e :: rest => by
      rw [List.take_succ_cons]
      by_cases he : matchesArea e = true
      · rw [List.find?_cons_of_pos _ he]
        simp [resolveLoop, he]
      · rw [List.find?_cons_of_neg _ (by simpa using he)]
        simp [resolveLoop, he, resolveLoop_eq_find? n rest]

/-! Section 5: the selection-dialog bookkeeping and the driver.  A dialog is
the list of the texts of its buttons; a locator for buttons with a given
text counts the buttons whose text contains that substring. -/

def countSelect (btns : List String) : Nat :=
  (btns.filter (fun b => substrS ("選択") b)).length

/-- The source enumerateCardCount (lines 249-259): the count of select
buttons, with a fallback to the alternative button labellings when that
count is zero. -/
def enumerateCardCount (btns : List String) : Nat :=
  let n := countSelect btns
  if n = 0 then
    (btns.filter (fun b => substrS ("決定") b || substrS ("選ぶ") b)).length
  else n

inductive RunError where
  | dialogTimeout : Nat → RunError
  | indexOutOfRange : Nat → Nat → RunError
  | extractFailure : Nat → RunError
deriving DecidableEq

/-- The source clickNthCard (lines 261-270): the select buttons are counted
afresh and an index at or past that fresh count throws; a successful click
carries no information here. -/
def clickNthCard (btns : List String) (index : Nat) : Except RunError Unit :=
  let total := countSelect btns
  if index ≥ total then Except.error (RunError.indexOutOfRange index total)
  else Except.ok ()

/-- One run environment, recording how the page behaves at each interaction:
the two enumeration probes of the counting pass, the buttons the dialog
shows when reopened for candidate i, whether that reopening times out, and
the write events the harvest of candidate i produces, with none standing for
a failure of the in-page extraction call. -/
structure Env where
  enumButtons1 : List String
  enumButtons2 : List String
  candButtons : Nat → List String
  openFails : Nat → Bool
  extract : Nat → Option (List (String × String))

structure RunResult where
  exitCode : Nat
  artifact : String
deriving DecidableEq

/-- One iteration of the driver loop (lines 302-315) for candidate i: reopen
the dialog, click the candidate, harvest the subject area, and assemble the
record; any throw escapes the loop. -/
def candidateStep (env : Env) (i : Nat) : Except RunError (List (String × String)) :=
  if env.openFails i then Except.error (RunError.dialogTimeout i)
  else
    match clickNthCard (env.candButtons i) i with
    | Except.error e => Except.error e
    | Except.ok _ =>
      match env.extract i with
      | none => Except.error (RunError.extractFailure i)
      | some ws => Except.ok (mkRec i (extractKeyValuesFromArea ws))

/-- The driver loop from candidate i with n candidates left: the records
accumulate in order and the first throw aborts the whole loop. -/
def runFrom (env : Env) : Nat → Nat → Except RunError (List (List (String × String)))
  | _, 0 => Except.ok []
  | i, n + 1 =>
    match candidateStep env i with
    | Except.error e => Except.error e
    | Except.ok r =>
      match runFrom env (i + 1) n with
      | Except.error e => Except.error e
      | Except.ok rs => Except.ok (r :: rs)

/-- The candidate count the driver observes (lines 292-297): one count, and
one retried count when the first is zero. -/
def observedCount (env : Env) : Nat :=
  let c1 := enumerateCardCount env.enumButtons1
  if c1 = 0 then enumerateCardCount env.enumButtons2 else c1

/-- The whole run, main plus the process-level then and catch handlers
(lines 273-337): the loop bound is the observed count capped by the
configured limit; a clean loop writes the rows and exits zero, and any
escaped throw reaches the handler, which writes the fallback header artifact
and exits one. -/
def runMain (env : Env) (le : String → String → Bool) (cfgLimit : Nat) : RunResult :=
  match runFrom env 0 (Nat.min (observedCount env) cfgLimit) with
  | Except.ok rows => ⟨0, writeCsvContent rows le⟩
  | Except.error _ => ⟨1, fallbackContent⟩

/-- The run of C1: two candidates, the first harvest throws, the second
would succeed. -/
def envC1 : Env :=
  ⟨["選択", "選択"], [], fun _ => ["選択", "選択"], fun _ => false,
    fun i => if i = 0 then none else some [("メンバー", "m")]⟩

/-- The run of C3: a clean run that observes zero candidates. -/
def envEmpty : Env :=
  ⟨[], [], fun _ => [], fun _ => false, fun _ => some []⟩

/-- The run of the C2 witness: two candidates counted, but the reopened
dialog for the first candidate shows no select buttons. -/
def envC2 : Env :=
  ⟨["選択", "選択"], [], fun _ => [], fun _ => false, fun _ => some []⟩

/-! Lemmas on the schema union and the header. -/

theorem contains_iff_mem (ks : List String) (k : String) :
    ks.contains k = true ↔ k ∈ ks := List.elem_iff

theorem mem_addKey (ks : List String) (k a : String) :
    a ∈ addKey ks k ↔ a ∈ ks ∨ a = k := by
  unfold addKey
  by_cases h : ks.contains k = true
  · rw [if_pos h]
    constructor
    · exact Or.inl
    · rintro (h2 | h2)
      · exact h2
      · subst h2
        exact (contains_iff_mem ks a).mp h
  · rw [if_neg h]
    simp [List.mem_append]

theorem nodup_addKey (ks : List String) (k : String) (h : ks.Nodup) :
    (addKey ks k).Nodup := by
  unfold addKey
  by_cases hc : ks.contains k = true
  · rw [if_pos hc]
    exact h
  · rw [if_neg hc]
    rw [List.nodup_append]
    refine ⟨h, List.nodup_singleton k, ?_⟩
    intro a ha hb
    rw [List.mem_singleton] at hb
    subst hb
    exact hc ((contains_iff_mem ks a).mpr ha)

theorem keysOf_inner_nodup : ∀ (r : List (String × String)) (ks : List String),
    ks.Nodup → (r.foldl (fun ks2 e => addKey ks2 e.1) ks).Nodup
  | [], _, h => h
  | e :: t, ks, h => keysOf_inner_nodup t (addKey ks e.1) (nodup_addKey ks e.1 h)

theorem keysOf_outer_nodup :
    ∀ (rows : List (List (String × String))) (ks : List String), ks.Nodup →
    (rows.foldl (fun ks r => r.foldl (fun ks2 e => addKey ks2 e.1) ks) ks).Nodup
  | [], _, h => h
  | r :: t, ks, h => keysOf_outer_nodup t _ (keysOf_inner_nodup r ks h)

theorem keysOf_nodup (rows : List (List (String × String))) : (keysOf rows).Nodup :=
  keysOf_outer_nodup rows [] List.nodup_nil

theorem mem_foldl_addKey_inner :
    ∀ (r : List (String × String)) (ks : List String) (a : String),
    a ∈ r.foldl (fun ks2 e => addKey ks2 e.1) ks ↔ a ∈ ks ∨ ∃ e ∈ r, e.1 = a
  | [], ks, a => by simp
  | e :: t, ks, a => by
      rw [List.foldl_cons, mem_foldl_addKey_inner t _ a, mem_addKey]
      constructor
      · rintro ((h | h) | ⟨e2, he2, h⟩)
        · exact Or.inl h
        · exact Or.inr ⟨e, List.mem_cons_self _ _, h.symm⟩
        · exact Or.inr ⟨e2, List.mem_cons_of_mem _ he2, h⟩
      · rintro (h | ⟨e2, he2, h⟩)
        · exact Or.inl (Or.inl h)
        · rcases List.mem_cons.mp he2 with h2 | h2
          · subst h2
            exact Or.inl (Or.inr h.symm)
          · exact Or.inr ⟨e2, h2, h⟩

theorem mem_foldl_addKey_outer :
    ∀ (rows : List (List (String × String))) (ks : List String) (a : String),
    a ∈ rows.foldl (fun ks r => r.foldl (fun ks2 e => addKey ks2 e.1) ks) ks ↔
      a ∈ ks ∨ ∃ r ∈ rows, ∃ e ∈ r, e.1 = a
  | [], ks, a => by simp
  | r :: t, ks, a => by
      rw [List.foldl_cons, mem_foldl_addKey_outer t _ a, mem_foldl_addKey_inner r ks a]
      constructor
      · rintro ((h | ⟨e, he, h⟩) | ⟨r2, hr2, h⟩)
        · exact Or.inl h
        · exact Or.inr ⟨r, List.mem_cons_self _ _, e, he, h⟩
        · exact Or.inr ⟨r2, List.mem_cons_of_mem _ hr2, h⟩
      · rintro (h | ⟨r2, hr2, h⟩)
        · exact Or.inl (Or.inl h)
        · rcases List.mem_cons.mp hr2 with h2 | h2
          · subst h2
            exact Or.inl (Or.inr h)
          · exact Or.inr ⟨r2, h2, h⟩

theorem mem_keysOf (rows : List (List (String × String))) (a : String) :
    a ∈ keysOf rows ↔ ∃ r ∈ rows, ∃ e ∈ r, e.1 = a := by
  unfold keysOf
  rw [mem_foldl_addKey_outer]
  simp

theorem prefer_nodup : prefer.Nodup := by decide

theorem writeCsvHeaders_nodup (rows : List (List (String × String)))
    (le : String → String → Bool) : (writeCsvHeaders rows le).Nodup := by
  unfold writeCsvHeaders sortByLe
  rw [List.nodup_append]
  refine ⟨List.Nodup.filter _ prefer_nodup, ?_, ?_⟩
  · exact ((List.perm_insertionSort _ _).symm.nodup (List.Nodup.filter _ (keysOf_nodup rows)))
  · intro a ha hb
    have hb2 := (List.perm_insertionSort _ _).subset hb
    have hb3 := List.mem_filter.mp hb2
    have ha2 := List.mem_filter.mp ha
    have hc : prefer.contains a = true := (contains_iff_mem _ _).mpr ha2.1
    rw [hc] at hb3
    exact absurd hb3.2 (by decide)

theorem mem_writeCsvHeaders (rows : List (List (String × String)))
    (le : String → String → Bool) (a : String) :
    a ∈ writeCsvHeaders rows le ↔ a ∈ keysOf rows := by
  unfold writeCsvHeaders sortByLe
  rw [List.mem_append]
  constructor
  · rintro (h | h)
    · exact (contains_iff_mem _ _).mp (List.mem_filter.mp h).2
    · exact (List.mem_filter.mp ((List.perm_insertionSort _ _).subset h)).1
  · intro h
    by_cases hp : a ∈ prefer
    · exact Or.inl (List.mem_filter.mpr ⟨hp, (contains_iff_mem _ _).mpr h⟩)
    · have hc : prefer.contains a = false := by
        cases hcc : prefer.contains a
        · rfl
        · exact absurd ((contains_iff_mem _ _).mp hcc) hp
      refine Or.inr ((List.perm_insertionSort _ _).symm.subset ?_)
      exact List.mem_filter.mpr ⟨h, by rw [hc]; rfl⟩

theorem sortByLe_sorted (le : String → String → Bool)
    (htr : ∀ a b c, le a b = true → le b c = true → le a c = true)
    (hto : ∀ a b, le a b = true ∨ le b a = true) (l : List String) :
    (sortByLe le l).Pairwise (fun a b => le a b = true) := by
  unfold sortByLe
  haveI : IsTotal String (fun a b => le a b = true) := ⟨hto⟩
  haveI : IsTrans String (fun a b => le a b = true) := ⟨htr⟩
  exact List.sorted_insertionSort _ l

theorem lookup_eq_none_of_not_mem_keys {kv : List (String × String)} {k : String}
    (h : k ∉ kv.map Prod.fst) : kv.lookup k = none := by
  induction kv with
  | nil => rfl
  | cons e t ih =>
    obtain ⟨k1, v1⟩ := e
    have h1 : k ≠ k1 := by
      intro hh
      subst hh
      exact h (by simp)
    rw [lookup_cons_if, if_neg h1]
    exact ih (fun hh => h (List.mem_cons_of_mem _ hh))

/-! Error propagation through the driver loop. -/

theorem runFrom_error : ∀ (k : Nat) (env : Env) (i n : Nat) (e : RunError),
    (∀ j, j < k → ∃ r, candidateStep env (i + j) = Except.ok r) →
    candidateStep env (i + k) = Except.error e →
    k < n →
    runFrom env i n = Except.error e
  | 0, env, i, n, e, _, herr, hk => by
      cases n with
      | zero => exact absurd hk (by omega)
      | succ m =>
        have h0 : candidateStep env i = Except.error e := by simpa using herr
        simp only [runFrom, h0]
  | k + 1, env, i, n, e, hok, herr, hk => by
      cases n with
      | zero => exact absurd hk (by omega)
      | succ m =>
        obtain ⟨r, hr⟩ := hok 0 (by omega)
        have hr0 : candidateStep env i = Except.ok r := by simpa using hr
        have ih := runFrom_error k env (i + 1) m e
          (fun j hj => by
            obtain ⟨r2, hr2⟩ := hok (j + 1) (by omega)
            exact ⟨r2, by rw [show i + 1 + j = i + (j + 1) from by omega]; exact hr2⟩)
          (by rw [show i + 1 + k = i + (k + 1) from by omega]; exact herr)
          (by omega)
        simp only [runFrom, hr0, ih]

theorem runMain_of_error (env : Env) (le : String → String → Bool) (cfg : Nat)
    (e : RunError)
    (h : runFrom env 0 (Nat.min (observedCount env) cfg) = Except.error e) :
    runMain env le cfg = ⟨1, fallbackContent⟩ := by
  unfold runMain
  rw [h]

theorem writeCsvContent_nil (le : String → String → Bool) :
    writeCsvContent [] le = "" := rfl

theorem runMain_of_ok_nil (env : Env) (le : String → String → Bool) (cfg : Nat)
    (h : runFrom env 0 (Nat.min (observedCount env) cfg) = Except.ok []) :
    runMain env le cfg = ⟨0, ""⟩ := by
  unfold runMain
  rw [h]
  rfl

/-! Record assembly lemmas. -/

theorem kvAssign_append : ∀ (acc : List (String × String)) (k v : String),
    k ∉ acc.map Prod.fst → kvAssign acc k v = acc ++ [(k, v)]
  | [], _, _, _ => rfl
  | e :: t, k, v, h => by
      have h1 : ¬(e.1 = k) := by
        intro hh
        exact h (by rw [← hh]; simp)
      simp only [kvAssign, if_neg h1]
      rw [kvAssign_append t k v (fun hh => h (List.mem_cons_of_mem _ hh))]
      rfl

theorem lookup_isSome_of_mem : ∀ {kv : List (String × String)} {e : String × String},
    e ∈ kv → (kv.lookup e.1).isSome = true
  | [], e, h => by simp at h
  | e2 :: t, e, h => by
      obtain ⟨k1, v1⟩ := e2
      rw [lookup_cons_if]
      by_cases h2 : e.1 = k1
      · rw [if_pos h2]
        rfl
      · rw [if_neg h2]
        rcases List.mem_cons.mp h with h3 | h3
        · exact absurd (by rw [h3]) h2
        · exact lookup_isSome_of_mem h3

theorem foldl_kvAssign_append : ∀ (l acc : List (String × String)),
    (∀ e ∈ l, e.1 ∉ acc.map Prod.fst) → (l.map Prod.fst).Nodup →
    l.foldl (fun a e => kvAssign a e.1 e.2) acc = acc ++ l
  | [], acc, _, _ => by simp
  | e :: t, acc, hfresh, hnd => by
      rw [List.foldl_cons]
      have h1 : kvAssign acc e.1 e.2 = acc ++ [(e.1, e.2)] :=
        kvAssign_append acc e.1 e.2 (hfresh e (List.mem_cons_self _ _))
      have hnd2 : (e.1 :: t.map Prod.fst).Nodup := by simpa using hnd
      rw [h1, foldl_kvAssign_append t (acc ++ [(e.1, e.2)]) ?_ (List.nodup_cons.mp hnd2).2]
      · rw [List.append_assoc]
        rfl
      · intro e2 he2
        rw [List.map_append, List.mem_append]
        rintro (h | h)
        · exact hfresh e2 (List.mem_cons_of_mem _ he2) h
        · rw [List.map_singleton, List.mem_singleton] at h
          exact (List.nodup_cons.mp hnd2).1 (h ▸ List.mem_map_of_mem Prod.fst he2)

/-! Case analysis of the composite card name. -/

theorem string_brackets_ne_empty (g : String) : ("[" ++ g ++ "]") ≠ "" := by
  intro hh
  have h2 := congrArg String.data hh
  rw [String.data_append, String.data_append] at h2
  simp at h2

theorem filter_pair_nonempty (a b : String) :
    List.filter (fun p => !(p == "")) [a, b] =
      (if a = "" then [] else [a]) ++ (if b = "" then [] else [b]) := by
  by_cases ha : a = "" <;> by_cases hb : b = "" <;> simp [List.filter_cons, ha, hb]

theorem mkCardName_cases (kv : List (String × String)) :
    mkCardName kv =
      (if ((kv.lookup ("シリーズ")).getD ("")) = "" then (kv.lookup ("メンバー")).getD ("")
       else if ((kv.lookup ("メンバー")).getD ("")) = "" then
         "[" ++ ((kv.lookup ("シリーズ")).getD ("")) ++ "]"
       else "[" ++ ((kv.lookup ("シリーズ")).getD ("")) ++ "]" ++ " " ++
         ((kv.lookup ("メンバー")).getD (""))) := by
  simp only [mkCardName]
  rw [filter_pair_nonempty]
  by_cases hg : ((kv.lookup ("シリーズ")).getD ("")) = ""
  · rw [hg]
    by_cases hm : ((kv.lookup ("メンバー")).getD ("")) = ""
    · rw [hm]
      rfl
    · simp only [if_pos rfl, if_neg hm, List.nil_append]
      rfl
  · simp only [if_neg hg, if_neg (string_brackets_ne_empty _)]
    by_cases hm : ((kv.lookup ("メンバー")).getD ("")) = ""
    · rw [hm]
      rfl
    · simp only [if_neg hm]
      rfl


/-! Claim theorems.  Each claim of the specification audit is settled by one
theorem below; a corrected claim also carries a counterexample theorem. -/

/-- Claim C1, counterexample: in a run with two counted candidates where the
first candidate's harvest throws and the second candidate's step would have
succeeded, the run aborts with exit code one and leaves only the fallback
artifact; the per-candidate failure is neither logged-and-skipped nor
followed by the next position. -/
theorem c1_counterexample :
    candidateStep envC1 0 = Except.error (RunError.extractFailure 0) ∧
    candidateStep envC1 1 =
      Except.ok [("index", "2"), ("カード名", "m"), ("メンバー", "m")] ∧
    runMain envC1 (fun _ _ => true) 999999 = ⟨1, fallbackContent⟩ :=
  ⟨rfl, rfl, by decide⟩

/-- Claim C1, amended: a failure during one candidate's selection or
extraction is not skipped; it escapes the loop, so the whole run aborts, the
process exits non-zero, and the header-only fallback artifact is written. -/
theorem c1_amended (env : Env) (le : String → String → Bool) (cfg i : Nat)
    (e : RunError)
    (hok : ∀ j, j < i → ∃ r, candidateStep env j = Except.ok r)
    (herr : candidateStep env i = Except.error e)
    (hi : i < Nat.min (observedCount env) cfg) :
    runMain env le cfg = ⟨1, fallbackContent⟩ :=
  runMain_of_error env le cfg e
    (runFrom_error i env 0 (Nat.min (observedCount env) cfg) e
      (fun j hj => by simpa using hok j hj) (by simpa using herr) hi)

/-- Claim C1, witness of the amended theorem at the concrete two-candidate
run whose first harvest throws. -/
theorem c1_amended_witness :
    runMain envC1 (fun _ _ => true) 999999 = ⟨1, fallbackContent⟩ :=
  c1_amended envC1 (fun _ _ => true) 999999 0 (RunError.extractFailure 0)
    (fun j hj => absurd hj (Nat.not_lt_zero j)) rfl (by decide)

/-- Claim C2: when the driver loop reaches position i with the prior
positions processed and the freshly re-counted select buttons number at most
i, that candidate's click throws the index-out-of-range error, the run
aborts, the process exits one, and the artifact on disk is the header-only
fallback with no data rows. -/
theorem c2_out_of_range_aborts (env : Env) (le : String → String → Bool)
    (cfg i : Nat)
    (hok : ∀ j, j < i → ∃ r, candidateStep env j = Except.ok r)
    (hi : i < Nat.min (observedCount env) cfg)
    (hopen : env.openFails i = false)
    (hcount : countSelect (env.candButtons i) ≤ i) :
    candidateStep env i =
      Except.error (RunError.indexOutOfRange i (countSelect (env.candButtons i))) ∧
    runMain env le cfg = ⟨1, fallbackContent⟩ := by
  have hstep : candidateStep env i =
      Except.error (RunError.indexOutOfRange i (countSelect (env.candButtons i))) := by
    simp only [candidateStep, hopen, Bool.false_eq_true, if_false]
    simp only [clickNthCard, if_pos hcount]
  refine ⟨hstep, ?_⟩
  exact runMain_of_error env le cfg _
    (runFrom_error i env 0 (Nat.min (observedCount env) cfg) _
      (fun j hj => by simpa using hok j hj) (by simpa using hstep) hi)

/-- Claim C2, witness at a concrete run: two candidates counted, the
reopened dialog for position zero shows no select buttons, the run exits one
with the fallback artifact. -/
theorem c2_witness :
    runMain envC2 (fun _ _ => true) 5 = ⟨1, fallbackContent⟩ :=
  (c2_out_of_range_aborts envC2 (fun _ _ => true) 5 0
    (fun j hj => absurd hj (Nat.not_lt_zero j)) (by decide) rfl (by decide)).2

/-- Claim C3, counterexample: a run that completes cleanly while observing
zero candidates exits zero but writes the empty artifact, which differs from
the fixed five-field fallback header written on failure, so the empty-run
and crashed-run artifacts are distinguishable by shape. -/
theorem c3_counterexample :
    runMain envEmpty (fun _ _ => true) 999999 = ⟨0, ""⟩ ∧
    fallbackContent = "index,カード名,メンバー,シリーズ,消費AP" ++ "\n" ∧
    ("" : String) ≠ fallbackContent :=
  ⟨by decide, rfl, by decide⟩

/-- Claim C3, amended: on a run that completes without error but harvests
zero records the process exits zero, but the artifact is the empty string,
an empty header line with no data rows, and differs from the header-only
fallback artifact of the failure path. -/
theorem c3_amended (env : Env) (le : String → String → Bool) (cfg : Nat)
    (h : runFrom env 0 (Nat.min (observedCount env) cfg) = Except.ok []) :
    runMain env le cfg = ⟨0, ""⟩ ∧ ("" : String) ≠ fallbackContent :=
  ⟨runMain_of_ok_nil env le cfg h, by decide⟩

/-- Claim C3, witness of the amended theorem at the concrete empty run. -/
theorem c3_amended_witness :
    runMain envEmpty (fun _ _ => true) 999999 = ⟨0, ""⟩ ∧
    ("" : String) ≠ fallbackContent :=
  c3_amended envEmpty (fun _ _ => true) 999999 rfl

/-- Claim C4, counterexample: the strategies write an empty value for key A
and then a non-empty value for the colon variant of A; the colon
post-processing finds the colon-free key already present and discards the
non-empty value instead of filling the empty one, while the first-write-wins
rule of the claim would have produced the non-empty value. -/
theorem c4_counterexample :
    extractKeyValuesFromArea [("A", ""), ("A:", "x")] = [("A", "")] ∧
    mergeVal none [("" : String), "x"] = some ("x") :=
  ⟨by decide, rfl⟩

/-- Claim C4, amended: within the set helper the merge is first-write-wins
with empty filling, the value stored under a key is the fold of that rule
over the writes targeting the key; but the colon post-processing keeps the
existing colon-free entry unconditionally, the colon entry's value being
discarded even when the existing value is empty. -/
theorem c4_amended (ws : List (String × String)) (k : String)
    (kv : List (String × String)) (nk : String)
    (hk : k ≠ "") (hnk : stripColon nk = nk)
    (hmem : (kv.lookup nk).isSome = true) :
    (buildKv ws).lookup k = mergeVal none (writesFor ws k) ∧
    (postProcess kv).lookup nk = kv.lookup nk :=
  ⟨lookup_buildKv ws k hk, lookup_postProcess kv nk hnk hmem⟩

/-- Claim C4, witness at concrete inputs: the key A written twice merges by
first-write-wins, and the post-processing of a state holding both A and its
colon variant keeps the stored value of A. -/
theorem c4_amended_witness :
    (buildKv [("A", "1"), ("A", "2")]).lookup ("A") =
      mergeVal none (writesFor [("A", "1"), ("A", "2")] ("A")) ∧
    (postProcess [("A", ""), ("A:", "x")]).lookup ("A") =
      List.lookup ("A") [("A", ""), ("A:", "x")] :=
  c4_amended [("A", "1"), ("A", "2")] ("A") [("A", ""), ("A:", "x")] ("A")
    (by decide) (by decide) (by decide)

/-- Claim C5: for every record set and every transitive total collator, the
emitted header has no duplicate name, contains a name exactly when some
record carries it, equals the preferred list filtered to the present keys in
its fixed order followed by the remaining keys in collator order, that
remainder is sorted; and the artifact is the header line followed by one
line per record, a field missing from a record rendering as the empty
string. -/
theorem c5_schema_union (rows : List (List (String × String)))
    (le : String → String → Bool)
    (htr : ∀ a b c, le a b = true → le b c = true → le a c = true)
    (hto : ∀ a b, le a b = true ∨ le b a = true) :
    (writeCsvHeaders rows le).Nodup ∧
    (∀ a, a ∈ writeCsvHeaders rows le ↔ ∃ r ∈ rows, ∃ e ∈ r, e.1 = a) ∧
    writeCsvHeaders rows le =
      prefer.filter (fun k => (keysOf rows).contains k) ++
        sortByLe le ((keysOf rows).filter (fun k => !prefer.contains k)) ∧
    (sortByLe le ((keysOf rows).filter (fun k => !prefer.contains k))).Pairwise
      (fun a b => le a b = true) ∧
    writeCsvContent rows le =
      String.intercalate ("\n")
        (csvLine ((writeCsvHeaders rows le).map (fun h => toCsvField (some h))) ::
          rows.map (fun r =>
            csvLine ((writeCsvHeaders rows le).map (fun h => toCsvField (r.lookup h))))) ∧
    (∀ r, r ∈ rows → ∀ h, h ∉ r.map Prod.fst → toCsvField (r.lookup h) = "") := by
  refine ⟨writeCsvHeaders_nodup rows le, ?_, rfl, sortByLe_sorted le htr hto _, rfl, ?_⟩
  · intro a
    rw [mem_writeCsvHeaders, mem_keysOf]
  · intro r _ h hmem
    rw [lookup_eq_none_of_not_mem_keys hmem]
    rfl

/-- Claim C5, witness at the two-record schema-union scenario of the
specification. -/
theorem c5_witness :
    (writeCsvHeaders [[("A", "x"), ("B", "y")], [("A", "z"), ("C", "w")]]
      (fun _ _ => true)).Nodup :=
  (c5_schema_union [[("A", "x"), ("B", "y")], [("A", "z"), ("C", "w")]]
    (fun _ _ => true) (fun _ _ _ _ _ => rfl) (fun _ _ => Or.inl rfl)).1

/-- The round-trip sample value, holding a separator, a quote and a line
break. -/
def csvSample : String := "a,\"b\nc"

/-- Claim C6: a value is quoted exactly when it contains a separator, a
quote character or a line break, in which case it is wrapped in quotes with
embedded quotes doubled, and is emitted unchanged otherwise; a value
containing a comma, once emitted, re-parses under standard CSV field reading
to the original text, in particular any value holding a comma, a quote and a
line break round-trips exactly. -/
theorem c6_csv_escape (s : String) :
    (needsQuoting s = true ↔ (',' ∈ s.data ∨ '"' ∈ s.data ∨ '\n' ∈ s.data)) ∧
    (needsQuoting s = true → toCsvField (some s) = "\"" ++ escapeQuotes s ++ "\"") ∧
    (needsQuoting s = false → toCsvField (some s) = s) ∧
    (',' ∈ s.data → '"' ∈ s.data → '\n' ∈ s.data →
      parseCsvField (toCsvField (some s)).data = some s.data) := by
  refine ⟨needsQuoting_iff s, ?_, ?_, ?_⟩
  · intro h
    simp only [toCsvField, if_pos h]
  · intro h
    simp only [toCsvField]
    rw [if_neg (by simp [h])]
  · intro h1 _ _
    exact parse_toCsvField s h1

/-- Claim C6, witness: the sample value with a comma, a quote and a line
break round-trips. -/
theorem c6_witness :
    parseCsvField (toCsvField (some csvSample)).data = some csvSample.data :=
  (c6_csv_escape csvSample).2.2.2 (by decide) (by decide) (by decide)

/-- Modelled from the spec: the composite card name exactly as the claim
words it, the literal template of the bracketed group, a space and the
member when the group is non-empty, else the member alone. -/
def cardNameSpec (group member : String) : String :=
  if group = "" then member else "[" ++ group ++ "] " ++ member

/-- Claim C7, counterexample: with a non-empty series and an absent member
the code synthesizes the bracketed series alone, while the template of the
claim yields a trailing space, so the two differ. -/
theorem c7_counterexample :
    mkCardName [("シリーズ", "S")] = "[S]" ∧
    cardNameSpec ("S") ("") = "[S] " ∧
    ("[S]" : String) ≠ "[S] " :=
  ⟨by decide, by decide, by decide⟩

/-- Claim C7, amended: for a record whose harvest contains neither the
card-name key nor the index key, the assembled record is the one-based index
and the composite card name followed by the harvested pairs in order, and
the composite is the bracketed series, a space and the member when both are
non-empty, the bracketed series alone when only the member is empty, and the
member alone when the series is empty. -/
theorem c7_amended (i : Nat) (kv : List (String × String))
    (hname : kv.lookup ("カード名") = none)
    (hidx : kv.lookup ("index") = none)
    (hnd : (kv.map Prod.fst).Nodup) :
    mkRec i kv =
      ("index", toString (i + 1)) :: ("カード名", mkCardName kv) :: kv ∧
    mkCardName kv =
      (if ((kv.lookup ("シリーズ")).getD ("")) = "" then (kv.lookup ("メンバー")).getD ("")
       else if ((kv.lookup ("メンバー")).getD ("")) = "" then
         "[" ++ ((kv.lookup ("シリーズ")).getD ("")) ++ "]"
       else "[" ++ ((kv.lookup ("シリーズ")).getD ("")) ++ "]" ++ " " ++
         ((kv.lookup ("メンバー")).getD (""))) := by
  constructor
  · unfold mkRec
    rw [foldl_kvAssign_append kv _ ?_ hnd]
    · rfl
    · intro e he hmem
      simp only [List.map_cons, List.map_nil, List.mem_cons, List.not_mem_nil,
        or_false] at hmem
      have hs := lookup_isSome_of_mem he
      rcases hmem with h | h
      · rw [h, hidx] at hs
        cases hs
      · rw [h, hname] at hs
        cases hs
  · exact mkCardName_cases kv

/-- Claim C7, witness of the amended theorem at a one-field harvest. -/
theorem c7_amended_witness :
    mkRec 0 [("メンバー", "m")] =
      ("index", toString (0 + 1)) :: ("カード名", mkCardName [("メンバー", "m")]) ::
        [("メンバー", "m")] :=
  (c7_amended 0 [("メンバー", "m")] rfl rfl (by decide)).1

/-- Claim C8, counterexample: an ancestor whose class is the word column
matches the pattern set of the claim but not the hyphenated col pattern of
the code, so the code falls back to the body where the claim promises that
ancestor. -/
theorem c8_counterexample :
    resolveFirstArea [⟨"DIV", "column"⟩] ⟨"BODY", ""⟩ = ⟨"BODY", ""⟩ ∧
    resolveFirstAreaSpec [⟨"DIV", "column"⟩] ⟨"BODY", ""⟩ = ⟨"DIV", "column"⟩ ∧
    (⟨"BODY", ""⟩ : Element) ≠ ⟨"DIV", "column"⟩ :=
  ⟨by decide, by decide, by decide⟩

/-- Claim C8, amended: the resolver returns the first of the nearest eight
ancestors that is a section element or whose lowercased class contains one
of the patterns card, panel, container, row, col followed by a hyphen,
member, area or block, and returns the document body when none matches, so
it always returns an element and never signals failure. -/
theorem c8_amended (ancestors : List Element) (body : Element) :
    resolveFirstArea ancestors body =
      ((ancestors.take 8).find? matchesArea).getD body := by
  unfold resolveFirstArea
  rw [resolveLoop_eq_find?]

/-- Claim C9: every field value stored by the extractor equals its own
whitespace-normalized form, and the normalizer is idempotent on every
string. -/
theorem c9_values_normalized (ws : List (String × String)) (p : String × String)
    (s : String) (hp : p ∈ extractKeyValuesFromArea ws) :
    p.2 = norm p.2 ∧ norm (norm s) = norm s :=
  ⟨extract_values_normalized hp, norm_idem s⟩

/-- Claim C9, witness at a concrete harvested pair and a concrete string. -/
theorem c9_witness :
    ((("a" : String), ("b c" : String)).2 = norm (("a", "b c") : String × String).2) ∧
    norm (norm (" x ")) = norm (" x ") :=
  c9_values_normalized [("a", " b  c ")] ("a", "b c") (" x ") (by decide)

/-- Claim C10: when no button of the counting dialog carries the select
label but some carry the alternative labels, and the dialog reopened for
position zero also shows no select-labelled button, the enumerated count is
positive, yet the very first selection throws out-of-range at position zero
of zero buttons and the run aborts with the fallback artifact. -/
theorem c10_affordance_mismatch (env : Env) (le : String → String → Bool)
    (cfg : Nat)
    (h1 : ∀ b ∈ env.enumButtons1, substrS ("選択") b = false)
    (h2 : 0 < (env.enumButtons1.filter
      (fun b => substrS ("決定") b || substrS ("選ぶ") b)).length)
    (h3 : ∀ b ∈ env.candButtons 0, substrS ("選択") b = false)
    (h4 : env.openFails 0 = false)
    (h5 : 1 ≤ cfg) :
    0 < observedCount env ∧
    candidateStep env 0 = Except.error (RunError.indexOutOfRange 0 0) ∧
    runMain env le cfg = ⟨1, fallbackContent⟩ := by
  have hcs1 : countSelect env.enumButtons1 = 0 := by
    unfold countSelect
    rw [List.filter_eq_nil_iff.mpr (fun b hb => by simp [h1 b hb])]
    rfl
  have hc1 : enumerateCardCount env.enumButtons1 =
      (env.enumButtons1.filter
        (fun b => substrS ("決定") b || substrS ("選ぶ") b)).length := by
    simp [enumerateCardCount, hcs1]
  have hobs : observedCount env = enumerateCardCount env.enumButtons1 := by
    simp only [observedCount]
    rw [if_neg (by rw [hc1]; omega)]
  have hpos : 0 < observedCount env := by
    rw [hobs, hc1]
    exact h2
  have hcs0 : countSelect (env.candButtons 0) = 0 := by
    unfold countSelect
    rw [List.filter_eq_nil_iff.mpr (fun b hb => by simp [h3 b hb])]
    rfl
  have hstep : candidateStep env 0 = Except.error (RunError.indexOutOfRange 0 0) := by
    simp only [candidateStep, h4, Bool.false_eq_true, if_false]
    simp only [clickNthCard, hcs0, if_pos (Nat.le_refl 0)]
  refine ⟨hpos, hstep, ?_⟩
  exact runMain_of_error env le cfg _
    (runFrom_error 0 env 0 (Nat.min (observedCount env) cfg) _
      (fun j hj => absurd hj (Nat.not_lt_zero j)) (by simpa using hstep)
      (lt_min_iff.mpr ⟨hpos, h5⟩))

/-- The dialog of the C10 witness: a single candidate exposing only the
alternative affordance. -/
def envC10 : Env :=
  ⟨["決定"], [], fun _ => ["決定"], fun _ => false, fun _ => some []⟩

/-- Claim C10, witness at the concrete alternative-affordance dialog. -/
theorem c10_witness :
    0 < observedCount envC10 ∧
    candidateStep envC10 0 = Except.error (RunError.indexOutOfRange 0 0) ∧
    runMain envC10 (fun _ _ => true) 999999 = ⟨1, fallbackContent⟩ :=
  c10_affordance_mismatch envC10 (fun _ _ => true) 999999
    (by decide) (by decide) (by decide) rfl (by decide)

end SCS
